import Mathlib

/-!
Verification of the autograd notebook `3.2-automatic-differentiation.ipynb`.

The notebook is a sequence of straight-line cells calling an external
tensor/autograd library.  The library itself is not part of the repository,
so its tensor object model and reverse-mode pass are modelled here from the
spec and from the notebook's own narration, and every worked example is
checked against the outputs recorded in the notebook.  Tensors carry exact
rational data (the recorded examples are exact in ℚ), flattened to a list,
together with the bookkeeping attributes the spec names: the
gradient-tracking flag, the producing-operation back-reference, the
accumulated-gradient slot, and the retain marker set by `retain_grad`.
-/

/-- Modelled from the spec: the producing operation recorded in a tensor's
back-reference.  Parents are identified by their index on the tape.
`addC`/`mulC` are elementwise operations with a constant, `mulE` is the
elementwise product of two tensors, `meanAll`/`sumAll` are the
reductions-to-scalar used by the notebook. -/
inductive Op where
  | addC (p : ℕ) (c : ℚ)
  | mulE (p q : ℕ)
  | mulC (p : ℕ) (c : ℚ)
  | meanAll (p : ℕ)
  | sumAll (p : ℕ)
deriving DecidableEq

/-- Modelled from the spec: a tensor object with its data and the
bookkeeping attributes (gradient-tracking flag, producing-operation
back-reference, accumulated-gradient slot, retain-grad marker). -/
structure Node where
  shape : List ℕ
  val : List ℚ
  requiresGrad : Bool
  gradFn : Option Op
  grad : Option (List ℚ)
  retains : Bool
deriving DecidableEq

/-- The recorded computation history: a tape of tensors, each operation
result appended after its parents. -/
abbrev GState := List Node

def defaultNode : Node := ⟨[], [], false, none, none, false⟩

def getNode (s : GState) (i : ℕ) : Node := s.getD i defaultNode

/-- Modelled from the spec: tensor construction by the user, with the
gradient-tracking flag; a user-created tensor has no producing operation
and an empty gradient slot. -/
def mkLeaf (s : GState) (sh : List ℕ) (v : List ℚ) (rg : Bool) : GState × ℕ :=
  (s ++ [⟨sh, v, rg, none, none, false⟩], s.length)

/-- Modelled from the spec: result of a library operation.  The result
tracks gradients when any input does, and in that case records the
producing operation in its back-reference. -/
def applyOp (s : GState) (op : Op) (sh : List ℕ) (v : List ℚ) (tracked : Bool) :
    GState × ℕ :=
  (s ++ [⟨sh, v, tracked, if tracked then some op else none, none, false⟩], s.length)

/-- Elementwise addition of a constant (`y = x + 2`). -/
def addC (s : GState) (p : ℕ) (c : ℚ) : GState × ℕ :=
  applyOp s (Op.addC p c) (getNode s p).shape
    ((getNode s p).val.map (fun v => v + c)) (getNode s p).requiresGrad

/-- Elementwise product of two tensors (`y * y`). -/
def mulE (s : GState) (p q : ℕ) : GState × ℕ :=
  applyOp s (Op.mulE p q) (getNode s p).shape
    (List.zipWith (fun a b => a * b) (getNode s p).val (getNode s q).val)
    ((getNode s p).requiresGrad || (getNode s q).requiresGrad)

/-- Elementwise multiplication by a constant (`x * 2`, `z = t * 3`). -/
def mulC (s : GState) (p : ℕ) (c : ℚ) : GState × ℕ :=
  applyOp s (Op.mulC p c) (getNode s p).shape
    ((getNode s p).val.map (fun v => v * c)) (getNode s p).requiresGrad

/-- Reduction to a scalar by averaging (`z.mean()`). -/
def meanAll (s : GState) (p : ℕ) : GState × ℕ :=
  applyOp s (Op.meanAll p) []
    [(getNode s p).val.sum / ((getNode s p).val.length : ℚ)]
    (getNode s p).requiresGrad

/-- Reduction to a scalar by summation (`x2.sum()`). -/
def sumAll (s : GState) (p : ℕ) : GState × ℕ :=
  applyOp s (Op.sumAll p) [] [(getNode s p).val.sum] (getNode s p).requiresGrad

def retainGradAux : ℕ → GState → GState
  | _, [] => []
  | 0, n :: ns => { n with retains := true } :: ns
  | i + 1, n :: ns => n :: retainGradAux i ns

/-- Modelled from the spec: `retain_grad()` marks a tensor so the reverse
pass stores its accumulated gradient even when it is not user-created. -/
def retainGrad (s : GState) (i : ℕ) : GState := retainGradAux i s

def addVec (a b : List ℚ) : List ℚ := List.zipWith (fun x y => x + y) a b

/-- Adjoint table of the reverse pass: the gradient accumulated so far for
each tape position, `none` where nothing has arrived yet. -/
abbrev Table := ℕ → Option (List ℚ)

def upd (t : Table) (i : ℕ) (v : Option (List ℚ)) : Table :=
  fun j => if j = i then v else t j

/-- Accumulate a gradient contribution into position `i` of the table. -/
def accum (t : Table) (i : ℕ) (g : List ℚ) : Table :=
  upd t i (some (match t i with | none => g | some h => addVec h g))

/-- Modelled from the spec: one step of the reverse pass.  If tensor `i`
has a producing operation and an adjoint has arrived, propagate the
vector-Jacobian product of that operation into the parents. -/
def vjpStep (s : GState) (t : Table) (i : ℕ) : Table :=
  match (getNode s i).gradFn, t i with
  | some (Op.addC p _), some a => accum t p a
  | some (Op.mulE p q), some a =>
      accum (accum t p (List.zipWith (fun x y => x * y) a (getNode s q).val))
        q (List.zipWith (fun x y => x * y) a (getNode s p).val)
  | some (Op.mulC p c), some a => accum t p (a.map (fun v => c * v))
  | some (Op.meanAll p), some a =>
      accum t p (List.replicate (getNode s p).val.length
        (a.headD 0 / ((getNode s p).val.length : ℚ)))
  | some (Op.sumAll p), some a =>
      accum t p (List.replicate (getNode s p).val.length (a.headD 0))
  | _, _ => t

/-- Walk the tape backward from position `i` down to `0`, propagating
adjoints. -/
def backPropAux (s : GState) : ℕ → Table → Table
  | 0, t => vjpStep s t 0
  | i + 1, t => backPropAux s i (vjpStep s t (i + 1))

/-- Modelled from the spec: store an adjoint into a tensor's
accumulated-gradient slot.  The slot is written for user-created tensors
that track gradients and for tensors marked by `retain_grad`; a gradient
already present is accumulated into. -/
def applyWrite (n : Node) : Option (List ℚ) → Node
  | none => n
  | some a =>
      if n.requiresGrad && (n.gradFn.isNone || n.retains) then
        { n with grad := some (match n.grad with | none => a | some g0 => addVec g0 a) }
      else n

def writeGradsAux (t : Table) : ℕ → GState → GState
  | _, [] => []
  | i, n :: ns => applyWrite n (t i) :: writeGradsAux t (i + 1) ns

/-- Modelled from the spec: validation of the optional seed gradient.  With
no seed the output must hold a single element, and the seed defaults to the
one-element gradient `[1]`; an explicit seed must match the output's number
of elements. -/
def seedFor (s : GState) (out : ℕ) : Option (List ℚ) → Option (List ℚ)
  | none =>
      if (getNode s out).val.length = 1 then some (List.replicate 1 1) else none
  | some g => if g.length = (getNode s out).val.length then some g else none

/-- Modelled from the spec: the reverse pass.  On a valid seed the adjoints
are propagated down the tape from the output and written into the
accumulated-gradient slots; on a seed mismatch the pass fails (`none`). -/
def backward (s : GState) (out : ℕ) (seed : Option (List ℚ)) : Option GState :=
  match seedFor s out seed with
  | none => none
  | some g =>
      some (writeGradsAux
        (backPropAux s (s.length - 1) (upd (fun _ => none) out (some g))) 0 s)

/-! ## The worked scalar-reduction example
`x = torch.ones(2, 2, requires_grad=True); y = x + 2; z = y * y * 3;
out = z.mean()` from the notebook. -/


/-- The forward tape of the worked example, returning the state and the
index of `out`. -/
def c1Cells : GState × ℕ :=
  let r0 := mkLeaf [] [2, 2] (List.replicate 4 1) true
  let r1 := addC r0.1 r0.2 2
  let r2 := mulE r1.1 r1.2 r1.2
  let r3 := mulC r2.1 r2.2 3
  meanAll r3.1 r3.2

/-- `x.grad` after `out.backward()` in the worked example (`none` if the
reverse pass fails). -/
def c1Grad : Option (Option (List ℚ)) :=
  (backward c1Cells.1 c1Cells.2 none).map (fun s => (getNode s 0).grad)

/-! ## The final exercise cell
`x1 = torch.randn(3, requires_grad=True); x1.retain_grad(); x2 = x1 * 2;
x2.retain_grad(); x3 = x2.sum(); x3.retain_grad(); x3.backward()`.
The initial values are arbitrary (`randn`), so they are parameters. -/

/-- The forward tape of the exercise cell (tensors `x1`, `x2 = x1 * 2`,
`x3 = x2.sum()`, each with `retain_grad()` called), returning the state and
the index of `x3`. -/
def ex3Cells (a b c : ℚ) : GState × ℕ :=
  let r0 := mkLeaf [] [3] [a, b, c] true
  let s0 := retainGrad r0.1 r0.2
  let r1 := mulC s0 r0.2 2
  let s1 := retainGrad r1.1 r1.2
  let r2 := sumAll s1 r1.2
  (retainGrad r2.1 r2.2, r2.2)

/-- `(x1.grad, x2.grad, x3.grad)` after `x3.backward()` in the exercise
cell (`none` if the reverse pass fails). -/
def ex3Grads (a b c : ℚ) :
    Option (Option (List ℚ) × Option (List ℚ) × Option (List ℚ)) :=
  (backward (ex3Cells a b c).1 (ex3Cells a b c).2 none).map
    (fun s => ((getNode s 0).grad, (getNode s 1).grad, (getNode s 2).grad))

/-- The before-`backward` state of the exercise cell paired with the grad
slots read there (the Ex4 printout of the notebook). -/
def ex3GradsBefore (a b c : ℚ) :
    Option (List ℚ) × Option (List ℚ) × Option (List ℚ) :=
  ((getNode (ex3Cells a b c).1 0).grad, (getNode (ex3Cells a b c).1 1).grad,
    (getNode (ex3Cells a b c).1 2).grad)

/-! ## The doubling loop
`x = torch.randn(3, requires_grad=True); y = x * 2;
while y.data.norm() < 1000: y = y * 2`.  The Euclidean-norm comparison
`norm(y) < 1000` is modelled exactly by the squared-norm comparison
`normSq y < 1000000`, both sides being nonnegative. -/

/-- Squared Euclidean norm of the tensor data. -/
def normSq (l : List ℚ) : ℚ := (l.map (fun v => v * v)).sum

/-- One doubling of the data (`y = y * 2`). -/
def doubleStep (y : List ℚ) : List ℚ := y.map (fun v => v * 2)

/-- The while loop on the data, with explicit fuel: returns the final data
if the loop exits within `fuel` iterations, `none` otherwise. -/
def doubleWhile : ℕ → List ℚ → Option (List ℚ)
  | 0, y => if 1000000 ≤ normSq y then some y else none
  | f + 1, y =>
      if 1000000 ≤ normSq y then some y else doubleWhile f (doubleStep y)

/-- Number of loop iterations executed by the while loop, with explicit
fuel. -/
def doubleCount : ℕ → List ℚ → Option ℕ
  | 0, y => if 1000000 ≤ normSq y then some 0 else none
  | f + 1, y =>
      if 1000000 ≤ normSq y then some 0
      else (doubleCount f (doubleStep y)).map (fun n => n + 1)

/-- Number of multiplication operations the loop cell issues on input `x`:
the initial `y = x * 2` plus one per loop iteration. -/
def cellMulOps (fuel : ℕ) (x : List ℚ) : Option ℕ :=
  (doubleCount fuel (doubleStep x)).map (fun n => n + 1)

/-- The operation skeleton of a recorded tape: the producing-operation
back-references and tracking flags, without the numeric data. -/
def skeletonOf (s : GState) : List (Option Op × Bool) :=
  s.map (fun n => (n.gradFn, n.requiresGrad))

/-! ## The doubling chain as a recorded computation
`y = 2^k * x` obtained by `k` successive multiplications by 2, then
`y.backward(g)`. -/

/-- Apply `mulC · 2` a further `k` times starting from the given state and
tensor. -/
def buildChain : GState × ℕ → ℕ → GState × ℕ
  | r, 0 => r
  | r, k + 1 => buildChain (mulC r.1 r.2 2) k

/-- The tape obtained from a user tensor `x` by `k` doublings, returning
the state and the index of the final tensor `y = 2^k * x`. -/
def chainRun (x : List ℚ) (k : ℕ) : GState × ℕ :=
  buildChain (mkLeaf [] [x.length] x true) k

/-- `x.grad` after `y.backward(g)` on the doubling chain (`none` if the
reverse pass fails). -/
def chainGrad (x g : List ℚ) (k : ℕ) : Option (Option (List ℚ)) :=
  (backward (chainRun x k).1 (chainRun x k).2 (some g)).map
    (fun s => (getNode s 0).grad)

/-- Closed form of the chain tape: the leaf followed by the `k` doubling
nodes, node `i + 1` holding `2 ^ (i + 1) * x` and back-referencing
`mulC i 2`. -/
def chainState (x : List ℚ) (k : ℕ) : GState :=
  ⟨[x.length], x, true, none, none, false⟩ ::
    (List.range k).map (fun i =>
      ⟨[x.length], x.map (fun v => (2 : ℚ) ^ (i + 1) * v), true,
        some (Op.mulC i 2), none, false⟩)

/-! ## Theorems -/

/-- C1: running the reverse pass from `out = mean(3 * (x + 2)^2)` at
`x = ones(2, 2)` populates `x.grad` with the uniform value `9/2 = 4.5`,
exactly as the notebook's recorded output shows. -/
theorem c1_worked_example_grad :
    c1Grad = some (some [9/2, 9/2, 9/2, 9/2]) := by with_unfolding_all decide

/-- C3: after `x3.backward()` on `x3 = sum(x1 * 2)` with gradients
retained, the reverse pass has accumulated, for every initial value of
`x1`, gradient `2` in every entry of `x1`, `1` in every entry of `x2`, and
the scalar `1` on `x3` — the Ex6 printout of the notebook. -/
theorem c3_exercise_grads (a b c : ℚ) :
    ex3Grads a b c = some (some [2, 2, 2], some [1, 1, 1], some [1]) := by
  with_unfolding_all rfl

/-! ### Tape access lemmas -/

theorem getNode_append_lt (s : GState) (n : Node) {i : ℕ} (h : i < s.length) :
    getNode (s ++ [n]) i = getNode s i :=
  List.getD_append _ _ _ _ h

theorem getNode_append_self (s : GState) (n : Node) :
    getNode (s ++ [n]) s.length = n := by
  unfold getNode
  rw [List.getD_append_right _ _ _ _ (Nat.le_refl _), Nat.sub_self]
  rfl

theorem retainGradAux_getNode (s : GState) : ∀ (j i : ℕ),
    (getNode (retainGradAux j s) i).grad = (getNode s i).grad ∧
    (getNode (retainGradAux j s) i).requiresGrad = (getNode s i).requiresGrad ∧
    (getNode (retainGradAux j s) i).gradFn = (getNode s i).gradFn := by
  induction s with
  | nil => intro j i; cases j <;> exact ⟨rfl, rfl, rfl⟩
  | cons n ns ih =>
    intro j i
    cases j with
    | zero => cases i with
      | zero => exact ⟨rfl, rfl, rfl⟩
      | succ i => exact ⟨rfl, rfl, rfl⟩
    | succ j => cases i with
      | zero => exact ⟨rfl, rfl, rfl⟩
      | succ i => exact ih j i

theorem applyWrite_requiresGrad (n : Node) (o : Option (List ℚ)) :
    (applyWrite n o).requiresGrad = n.requiresGrad := by
  cases o with
  | none => rfl
  | some a => simp only [applyWrite]; split <;> rfl

theorem applyWrite_gradFn (n : Node) (o : Option (List ℚ)) :
    (applyWrite n o).gradFn = n.gradFn := by
  cases o with
  | none => rfl
  | some a => simp only [applyWrite]; split <;> rfl

theorem writeGradsAux_getNode (t : Table) : ∀ (s : GState) (k i : ℕ),
    (getNode (writeGradsAux t k s) i).requiresGrad =
        (getNode s i).requiresGrad ∧
    (getNode (writeGradsAux t k s) i).gradFn = (getNode s i).gradFn := by
  intro s
  induction s with
  | nil => intro k i; exact ⟨rfl, rfl⟩
  | cons n ns ih =>
    intro k i
    cases i with
    | zero => exact ⟨applyWrite_requiresGrad n (t k), applyWrite_gradFn n (t k)⟩
    | succ i => exact ih (k + 1) i

theorem backward_dest (s : GState) (out : ℕ) (sd : Option (List ℚ))
    (s2 : GState) (h : backward s out sd = some s2) :
    ∃ g, s2 = writeGradsAux
      (backPropAux s (s.length - 1) (upd (fun _ => none) out (some g))) 0 s := by
  unfold backward at h
  cases hs : seedFor s out sd with
  | none => rw [hs] at h; simp at h
  | some g => rw [hs] at h; simp at h; exact ⟨g, h.symm⟩

/-! ### Claim theorems on the bookkeeping attributes -/

/-- C7: the accumulated-gradient slot is populated only by a reverse pass.
Every tensor produced by construction or by a forward operation is created
with an empty (`none`) slot, and the forward operations — construction,
elementwise arithmetic, the reductions, and `retain_grad` — leave the slots
of all existing tensors unchanged. -/
theorem c7_grad_written_only_by_backward (s : GState) (sh : List ℕ)
    (v : List ℚ) (rg : Bool) (p q j : ℕ) (c : ℚ) :
    ((getNode (mkLeaf s sh v rg).1 s.length).grad = none ∧
      (getNode (addC s p c).1 s.length).grad = none ∧
      (getNode (mulE s p q).1 s.length).grad = none ∧
      (getNode (mulC s p c).1 s.length).grad = none ∧
      (getNode (meanAll s p).1 s.length).grad = none ∧
      (getNode (sumAll s p).1 s.length).grad = none) ∧
    (∀ i, i < s.length →
      (getNode (mkLeaf s sh v rg).1 i).grad = (getNode s i).grad ∧
      (getNode (addC s p c).1 i).grad = (getNode s i).grad ∧
      (getNode (mulE s p q).1 i).grad = (getNode s i).grad ∧
      (getNode (mulC s p c).1 i).grad = (getNode s i).grad ∧
      (getNode (meanAll s p).1 i).grad = (getNode s i).grad ∧
      (getNode (sumAll s p).1 i).grad = (getNode s i).grad) ∧
    (∀ i, (getNode (retainGrad s j) i).grad = (getNode s i).grad) := by
  refine ⟨⟨?_, ?_, ?_, ?_, ?_, ?_⟩, fun i hi => ⟨?_, ?_, ?_, ?_, ?_, ?_⟩,
    fun i => (retainGradAux_getNode s j i).1⟩ <;>
    simp only [mkLeaf, addC, mulE, mulC, meanAll, sumAll, applyOp] <;>
    first
      | rw [getNode_append_self]
      | rw [getNode_append_lt _ _ hi]

/-- C7 witness: concrete instance on a one-tensor tape. -/
theorem c7_witness :
    (getNode (addC (mkLeaf [] [1] [7] true).1 0 2).1 1).grad = none ∧
    (getNode (addC (mkLeaf [] [1] [7] true).1 0 2).1 0).grad =
      (getNode (mkLeaf [] [1] [7] true).1 0).grad := by
  have h := c7_grad_written_only_by_backward
    (mkLeaf [] [1] [7] true).1 [1] [7] true 0 0 0 2
  exact ⟨h.1.2.1, (h.2.1 0 (by decide)).2.1⟩

/-- C6: the producing-operation back-reference is `none` on every tensor
constructed directly by the user, and on a tensor resulting from an
operation on a gradient-tracked tensor it refers to that operation. -/
theorem c6_grad_fn_presence (s : GState) (sh : List ℕ) (v : List ℚ)
    (rg : Bool) (p q : ℕ) (c : ℚ) :
    (getNode (mkLeaf s sh v rg).1 s.length).gradFn = none ∧
    ((getNode s p).requiresGrad = true →
      (getNode (addC s p c).1 s.length).gradFn = some (Op.addC p c) ∧
      (getNode (mulC s p c).1 s.length).gradFn = some (Op.mulC p c) ∧
      (getNode (meanAll s p).1 s.length).gradFn = some (Op.meanAll p) ∧
      (getNode (sumAll s p).1 s.length).gradFn = some (Op.sumAll p) ∧
      (getNode (mulE s p q).1 s.length).gradFn = some (Op.mulE p q) ∧
      (getNode (mulE s q p).1 s.length).gradFn = some (Op.mulE q p)) := by
  constructor
  · simp only [mkLeaf]; rw [getNode_append_self]
  · intro h
    refine ⟨?_, ?_, ?_, ?_, ?_, ?_⟩ <;>
      simp only [addC, mulC, meanAll, sumAll, mulE, applyOp] <;>
      rw [getNode_append_self] <;> simp [h]

/-- C6 witness: the user tensor of the worked example has no back-reference
and `y = x + 2` references the addition. -/
theorem c6_witness :
    (getNode (mkLeaf [] [1] [7] true).1 0).gradFn = none ∧
    (getNode (addC (mkLeaf [] [1] [7] true).1 0 2).1 1).gradFn =
      some (Op.addC 0 2) := by
  have h0 := c6_grad_fn_presence [] [1] [7] true 0 0 2
  have h1 := c6_grad_fn_presence (mkLeaf [] [1] [7] true).1 [1] [7] true 0 0 2
  exact ⟨h0.1, (h1.2 (by decide)).1⟩

/-- C2: seed validation of the reverse pass.  When the output holds one
element the pass may be invoked with no seed; when it does not, the no-seed
invocation fails and a seed with the output's number of elements is
accepted. -/
theorem c2_seed_validation (s : GState) (out : ℕ) (g : List ℚ) :
    ((getNode s out).val.length = 1 → (backward s out none).isSome = true) ∧
    ((getNode s out).val.length ≠ 1 → backward s out none = none) ∧
    (g.length = (getNode s out).val.length →
      (backward s out (some g)).isSome = true) := by
  refine ⟨fun h => ?_, fun h => ?_, fun h => ?_⟩ <;> simp [backward, seedFor, h]

/-- C2 witness: a shape-(3,) output rejects the no-seed invocation and
accepts a length-3 seed; a scalar output accepts the no-seed invocation. -/
theorem c2_witness :
    backward (mkLeaf [] [3] [1, 2, 3] true).1 0 none = none ∧
    (backward (mkLeaf [] [3] [1, 2, 3] true).1 0 (some [1, 1, 1])).isSome
      = true ∧
    (backward (mkLeaf [] ([] : List ℕ) [5] true).1 0 none).isSome = true :=
  ⟨(c2_seed_validation (mkLeaf [] [3] [1, 2, 3] true).1 0 []).2.1 (by decide),
    (c2_seed_validation (mkLeaf [] [3] [1, 2, 3] true).1 0 [1, 1, 1]).2.2
      (by decide),
    (c2_seed_validation (mkLeaf [] ([] : List ℕ) [5] true).1 0 []).1
      (by decide)⟩

/-- C8: for an output holding one element, the no-seed reverse pass is the
reverse pass seeded with the gradient `[1]`: the resulting states — hence
all accumulated gradients — are identical. -/
theorem c8_default_seed_is_one (s : GState) (out : ℕ)
    (h : (getNode s out).val.length = 1) :
    backward s out none = backward s out (some [1]) := by
  simp [backward, seedFor, h]

/-- C8 witness: concrete scalar output. -/
theorem c8_witness :
    (getNode (mkLeaf [] ([] : List ℕ) [5] true).1 0).val.length = 1 ∧
    backward (mkLeaf [] ([] : List ℕ) [5] true).1 0 none =
      backward (mkLeaf [] ([] : List ℕ) [5] true).1 0 (some [1]) :=
  ⟨by decide, c8_default_seed_is_one _ 0 (by decide)⟩

/-- C5 counterexample: the reverse pass — an operation invoked by the
exercise cell of the notebook — changes the accumulated-gradient slots of
`x1`, `x2`, `x3` from `none` to populated values, so repository-invoked
operations do write bookkeeping attributes. -/
theorem c5_counterexample :
    ex3GradsBefore 1 1 1 = (none, none, none) ∧
    ex3Grads 1 1 1 = some (some [2, 2, 2], some [1, 1, 1], some [1]) ∧
    ex3Grads 1 1 1 ≠ some (ex3GradsBefore 1 1 1) := by
  with_unfolding_all decide

/-- C5 amended: repository code never assigns the bookkeeping attributes
directly; forward operations leave every existing tensor entirely
unchanged, `retain_grad` changes none of the three bookkeeping attributes,
and the reverse pass writes only the accumulated-gradient slot, preserving
the tracking flag and the producing-operation back-reference of every
tensor. -/
theorem c5_amended_frame (s : GState) (out p q j : ℕ) (c : ℚ) (sh : List ℕ)
    (v : List ℚ) (rg : Bool) (sd : Option (List ℚ)) (s2 : GState) :
    (∀ i, i < s.length →
      getNode (mkLeaf s sh v rg).1 i = getNode s i ∧
      getNode (addC s p c).1 i = getNode s i ∧
      getNode (mulE s p q).1 i = getNode s i ∧
      getNode (mulC s p c).1 i = getNode s i ∧
      getNode (meanAll s p).1 i = getNode s i ∧
      getNode (sumAll s p).1 i = getNode s i) ∧
    (∀ i,
      (getNode (retainGrad s j) i).requiresGrad =
        (getNode s i).requiresGrad ∧
      (getNode (retainGrad s j) i).gradFn = (getNode s i).gradFn ∧
      (getNode (retainGrad s j) i).grad = (getNode s i).grad) ∧
    (backward s out sd = some s2 →
      ∀ i, (getNode s2 i).requiresGrad = (getNode s i).requiresGrad ∧
        (getNode s2 i).gradFn = (getNode s i).gradFn) := by
  refine ⟨fun i hi => ?_,
    fun i => ⟨(retainGradAux_getNode s j i).2.1,
      (retainGradAux_getNode s j i).2.2, (retainGradAux_getNode s j i).1⟩,
    fun h i => ?_⟩
  · exact ⟨getNode_append_lt _ _ hi, getNode_append_lt _ _ hi,
      getNode_append_lt _ _ hi, getNode_append_lt _ _ hi,
      getNode_append_lt _ _ hi, getNode_append_lt _ _ hi⟩
  · obtain ⟨g, rfl⟩ := backward_dest s out sd s2 h
    exact writeGradsAux_getNode _ s 0 i

/-! ### Lemmas on the doubling loop -/

theorem normSq_doubleStep (y : List ℚ) : normSq (doubleStep y) = 4 * normSq y := by
  induction y with
  | nil => simp [normSq, doubleStep]
  | cons a l ih =>
      simp only [normSq, doubleStep, List.map_cons, List.sum_cons] at ih ⊢
      rw [ih]; ring

theorem normSq_nonneg (l : List ℚ) : 0 ≤ normSq l := by
  induction l with
  | nil => simp [normSq]
  | cons a l ih =>
      simp only [normSq, List.map_cons, List.sum_cons] at ih ⊢
      exact add_nonneg (mul_self_nonneg a) ih

theorem map_pow_doubleStep (y : List ℚ) (k : ℕ) :
    (doubleStep y).map (fun v => (2 : ℚ) ^ k * v) =
      y.map (fun v => (2 : ℚ) ^ (k + 1) * v) := by
  unfold doubleStep
  rw [List.map_map]
  have e : ((fun v => (2 : ℚ) ^ k * v) ∘ fun v => v * 2) =
      fun v => (2 : ℚ) ^ (k + 1) * v := by
    funext v; simp only [Function.comp]; ring
  rw [e]

theorem map_pow_zero (y : List ℚ) : y.map (fun v => (2 : ℚ) ^ 0 * v) = y := by
  have e : (fun v => (2 : ℚ) ^ 0 * v) = fun v => v := by
    funext v; simp
  rw [e]
  exact List.map_id _

theorem doubleCount_congr (fuel : ℕ) : ∀ x y : List ℚ,
    normSq x = normSq y → doubleCount fuel x = doubleCount fuel y := by
  induction fuel with
  | zero => intro x y h; simp [doubleCount, h]
  | succ f ih =>
      intro x y h
      simp only [doubleCount, h]
      by_cases hc : (1000000 : ℚ) ≤ normSq y
      · simp [hc]
      · simp only [if_neg hc]
        rw [ih (doubleStep x) (doubleStep y)
          (by rw [normSq_doubleStep, normSq_doubleStep, h])]

theorem doubleWhile_term : ∀ (fuel : ℕ) (y : List ℚ),
    1000000 ≤ 4 ^ fuel * normSq y →
    ∃ k ≤ fuel,
      doubleWhile fuel y = some (y.map (fun v => (2 : ℚ) ^ k * v)) ∧
      1000000 ≤ normSq (y.map (fun v => (2 : ℚ) ^ k * v)) := by
  intro fuel
  induction fuel with
  | zero =>
      intro y h
      simp only [pow_zero, one_mul] at h
      refine ⟨0, Nat.le_refl 0, ?_, ?_⟩
      · rw [map_pow_zero]; simp [doubleWhile, h]
      · rw [map_pow_zero]; exact h
  | succ f ih =>
      intro y h
      by_cases hc : (1000000 : ℚ) ≤ normSq y
      · refine ⟨0, Nat.zero_le _, ?_, ?_⟩
        · rw [map_pow_zero]; simp [doubleWhile, hc]
        · rw [map_pow_zero]; exact hc
      · have h2 : 1000000 ≤ 4 ^ f * normSq (doubleStep y) := by
          rw [normSq_doubleStep]
          have e : (4 : ℚ) ^ f * (4 * normSq y) = 4 ^ (f + 1) * normSq y := by
            ring
          rw [e]; exact h
        obtain ⟨k, hk, hdw, hns⟩ := ih (doubleStep y) h2
        refine ⟨k + 1, Nat.succ_le_succ hk, ?_, ?_⟩
        · simp only [doubleWhile, if_neg hc]
          rw [hdw, map_pow_doubleStep]
        · rw [map_pow_doubleStep] at hns; exact hns

theorem doubleWhile_zero_tensor : ∀ fuel : ℕ,
    doubleWhile fuel (List.replicate 3 (0 : ℚ)) = none := by
  have hc : ¬ (1000000 : ℚ) ≤ normSq (List.replicate 3 (0 : ℚ)) := by
    with_unfolding_all decide
  have hz : doubleStep (List.replicate 3 (0 : ℚ)) = List.replicate 3 0 := by
    with_unfolding_all decide
  intro fuel
  induction fuel with
  | zero => simp only [doubleWhile, if_neg hc]
  | succ f ih => simp only [doubleWhile, if_neg hc, hz]; exact ih

/-! ### Claim theorems on the loop cell -/

/-- C4 counterexample: two runs of the doubling-loop cell on different
input tensors execute different numbers of multiplication operations
(10 for `x = [1, 0, 0]`, 1 for `x = [1000, 0, 0]`), so the cell's control
flow does depend on the numeric data. -/
theorem c4_counterexample :
    cellMulOps 20 [1, 0, 0] ≠ cellMulOps 20 [1000, 0, 0] := by
  with_unfolding_all decide

/-- C4 amended: every authored cell except the doubling-loop cell is
straight-line — its operation skeleton is independent of the numeric data —
and in the doubling-loop cell the executed operation sequence depends on
the data only through the norm of the input: runs whose inputs have equal
squared norm execute the same number of multiplications. -/
theorem c4_amended_control_flow :
    (∀ a b c : ℚ,
      skeletonOf (ex3Cells a b c).1 = skeletonOf (ex3Cells 0 0 0).1) ∧
    (∀ (fuel : ℕ) (x y : List ℚ), normSq x = normSq y →
      cellMulOps fuel x = cellMulOps fuel y) := by
  constructor
  · intro a b c; with_unfolding_all rfl
  · intro fuel x y h
    unfold cellMulOps
    rw [doubleCount_congr fuel (doubleStep x) (doubleStep y)
      (by rw [normSq_doubleStep, normSq_doubleStep, h])]

/-- C4 amended witness: concrete instances. -/
theorem c4_amended_witness :
    skeletonOf (ex3Cells 5 6 7).1 = skeletonOf (ex3Cells 0 0 0).1 ∧
    normSq [3, 0, 0] = normSq [0, 3, 0] ∧
    cellMulOps 20 [3, 0, 0] = cellMulOps 20 [0, 3, 0] :=
  ⟨c4_amended_control_flow.1 5 6 7, by with_unfolding_all decide,
    c4_amended_control_flow.2 20 [3, 0, 0] [0, 3, 0]
      (by with_unfolding_all decide)⟩

/-- C9: for every 3-element tensor `x` of nonzero norm the doubling loop
terminates: for sufficient fuel it exits after finitely many iterations
with `y = 2^k * x` for some `k ≥ 1` and `norm(y) ≥ 1000` (equivalently
`normSq y ≥ 1000000`); and the nonzero-norm precondition is necessary,
since on the zero tensor the loop never exits, whatever the fuel. -/
theorem c9_loop_terminates (x : List ℚ) (_hlen : x.length = 3)
    (h : normSq x ≠ 0) :
    (∃ fuel k, 1 ≤ k ∧
      doubleWhile fuel (doubleStep x) =
        some (x.map (fun v => (2 : ℚ) ^ k * v)) ∧
      1000000 ≤ normSq (x.map (fun v => (2 : ℚ) ^ k * v))) ∧
    (∀ fuel, doubleWhile fuel (List.replicate 3 (0 : ℚ)) = none) := by
  refine ⟨?_, doubleWhile_zero_tensor⟩
  have hpos : 0 < normSq x := lt_of_le_of_ne (normSq_nonneg x) (Ne.symm h)
  have hpos2 : 0 < normSq (doubleStep x) := by
    rw [normSq_doubleStep]; linarith
  obtain ⟨n, hn⟩ := pow_unbounded_of_one_lt
    ((1000000 : ℚ) / normSq (doubleStep x)) (by norm_num : (1 : ℚ) < 4)
  have h4 : (1000000 : ℚ) ≤ 4 ^ n * normSq (doubleStep x) := by
    rw [div_lt_iff₀ hpos2] at hn; linarith
  obtain ⟨k, hk, hdw, hns⟩ := doubleWhile_term n (doubleStep x) h4
  refine ⟨n, k + 1, Nat.le_add_left 1 k, ?_, ?_⟩
  · rw [hdw, map_pow_doubleStep]
  · rw [map_pow_doubleStep] at hns; exact hns

/-- C9 witness: the loop terminates from `x = [1, 0, 0]` and never exits
on the zero tensor. -/
theorem c9_witness :
    ([1, 0, 0] : List ℚ).length = 3 ∧ normSq [1, 0, 0] ≠ 0 ∧
    ((∃ fuel k, 1 ≤ k ∧
        doubleWhile fuel (doubleStep [1, 0, 0]) =
          some (([1, 0, 0] : List ℚ).map (fun v => (2 : ℚ) ^ k * v)) ∧
        1000000 ≤
          normSq (([1, 0, 0] : List ℚ).map (fun v => (2 : ℚ) ^ k * v))) ∧
      (∀ fuel, doubleWhile fuel (List.replicate 3 (0 : ℚ)) = none)) :=
  ⟨by decide, by with_unfolding_all decide,
    c9_loop_terminates [1, 0, 0] (by decide) (by with_unfolding_all decide)⟩

/-! ### Lemmas on the doubling chain -/

theorem chainState_length (x : List ℚ) (k : ℕ) :
    (chainState x k).length = k + 1 := by
  simp [chainState]

theorem chainState_zero (x : List ℚ) (k : ℕ) :
    getNode (chainState x k) 0 = ⟨[x.length], x, true, none, none, false⟩ :=
  rfl

theorem chainState_succ (x : List ℚ) (k i : ℕ) (h : i < k) :
    getNode (chainState x k) (i + 1) =
      ⟨[x.length], x.map (fun v => (2 : ℚ) ^ (i + 1) * v), true,
        some (Op.mulC i 2), none, false⟩ := by
  unfold chainState getNode
  rw [List.getD_cons_succ]
  rw [List.getD_eq_getElem _ _ (by simpa using h)]
  simp [List.getElem_map]

theorem chainState_node (x : List ℚ) (k i : ℕ) (h : i ≤ k) :
    (getNode (chainState x k) i).val = x.map (fun v => (2 : ℚ) ^ i * v) ∧
    (getNode (chainState x k) i).shape = [x.length] ∧
    (getNode (chainState x k) i).requiresGrad = true := by
  cases i with
  | zero => exact ⟨(map_pow_zero x).symm, rfl, rfl⟩
  | succ i =>
      rw [chainState_succ x k i (by omega)]
      exact ⟨rfl, rfl, rfl⟩

theorem chainState_snoc (x : List ℚ) (j : ℕ) :
    chainState x (j + 1) = chainState x j ++
      [⟨[x.length], x.map (fun v => (2 : ℚ) ^ (j + 1) * v), true,
        some (Op.mulC j 2), none, false⟩] := by
  unfold chainState
  rw [List.range_succ, List.map_append]
  rfl

theorem mulC_chainState (x : List ℚ) (j : ℕ) :
    mulC (chainState x j) j 2 = (chainState x (j + 1), j + 1) := by
  unfold mulC applyOp
  obtain ⟨hval, hsh, hrg⟩ := chainState_node x j j (Nat.le_refl j)
  rw [hval, hsh, hrg, chainState_length, chainState_snoc]
  have hv : (x.map (fun v => (2 : ℚ) ^ j * v)).map (fun v => v * 2) =
      x.map (fun v => (2 : ℚ) ^ (j + 1) * v) := by
    rw [List.map_map]
    have e : ((fun v => v * 2) ∘ fun v => (2 : ℚ) ^ j * v) =
        fun v => (2 : ℚ) ^ (j + 1) * v := by
      funext v; simp only [Function.comp]; ring
    rw [e]
  rw [hv]
  simp

theorem buildChain_chainState (x : List ℚ) : ∀ k j : ℕ,
    buildChain (chainState x j, j) k = (chainState x (j + k), j + k) := by
  intro k
  induction k with
  | zero => intro j; rfl
  | succ k ih =>
      intro j
      show buildChain (mulC (chainState x j) j 2) k = _
      rw [mulC_chainState, ih (j + 1)]
      have e : j + 1 + k = j + (k + 1) := by omega
      rw [e]

theorem chainRun_eq (x : List ℚ) (k : ℕ) :
    chainRun x k = (chainState x k, k) := by
  unfold chainRun
  have h0 : mkLeaf [] [x.length] x true = (chainState x 0, 0) := by
    unfold mkLeaf chainState
    simp
  rw [h0, buildChain_chainState]
  simp

theorem chain_backPropAux (x : List ℚ) (k : ℕ) : ∀ i : ℕ, i ≤ k →
    ∀ (t : Table) (a : List ℚ), t i = some a → (∀ j, j < i → t j = none) →
    backPropAux (chainState x k) i t 0 =
      some (a.map (fun v => (2 : ℚ) ^ i * v)) := by
  intro i
  induction i with
  | zero =>
      intro _ t a ht _
      show vjpStep (chainState x k) t 0 0 = _
      show t 0 = _
      rw [ht, map_pow_zero]
  | succ i ih =>
      intro hik t a ht hnone
      show backPropAux (chainState x k) i (vjpStep (chainState x k) t (i + 1)) 0 = _
      have hstep : vjpStep (chainState x k) t (i + 1) =
          accum t i (a.map (fun v => (2 : ℚ) * v)) := by
        unfold vjpStep
        rw [chainState_succ x k i (by omega), ht]
      rw [hstep]
      have hacc : accum t i (a.map (fun v => (2 : ℚ) * v)) =
          upd t i (some (a.map (fun v => (2 : ℚ) * v))) := by
        unfold accum
        rw [hnone i (by omega)]
      rw [hacc]
      have h1 : upd t i (some (a.map (fun v => (2 : ℚ) * v))) i =
          some (a.map (fun v => (2 : ℚ) * v)) := by
        simp [upd]
      have h2 : ∀ j, j < i →
          upd t i (some (a.map (fun v => (2 : ℚ) * v))) j = none := by
        intro j hj
        simp only [upd]
        rw [if_neg (by omega : ¬ j = i)]
        exact hnone j (by omega)
      rw [ih (by omega) _ _ h1 h2, List.map_map]
      have e : ((fun v => (2 : ℚ) ^ i * v) ∘ fun v => (2 : ℚ) * v) =
          fun v => (2 : ℚ) ^ (i + 1) * v := by
        funext v; simp only [Function.comp]; ring
      rw [e]

/-- C10: running the reverse pass with seed `g` on `y = 2^k * x` built by
`k` doublings accumulates `2^k * g`, componentwise, into `x.grad`. -/
theorem c10_chain_grad (x g : List ℚ) (k : ℕ) (h : g.length = x.length) :
    chainGrad x g k = some (some (g.map (fun v => (2 : ℚ) ^ k * v))) := by
  unfold chainGrad
  rw [chainRun_eq]
  dsimp only
  have hval : (getNode (chainState x k) k).val.length = g.length := by
    rcases chainState_node x k k (Nat.le_refl k) with ⟨hv, _, _⟩
    rw [hv, List.length_map, h]
  have hseed : seedFor (chainState x k) k (some g) = some g := by
    show (if g.length = (getNode (chainState x k) k).val.length
      then some g else none) = some g
    rw [if_pos hval.symm]
  unfold backward
  rw [hseed]
  dsimp only
  rw [chainState_length]
  simp only [Nat.add_sub_cancel, Option.map_some']
  have ht0 : (upd (fun _ => none) k (some g) : Table) k = some g := by
    simp [upd]
  have ht0n : ∀ j, j < k → (upd (fun _ => none) k (some g) : Table) j = none := by
    intro j hj
    simp only [upd]
    rw [if_neg (by omega : ¬ j = k)]
  have hbp := chain_backPropAux x k k (Nat.le_refl k) _ g ht0 ht0n
  have hw : ∀ T : Table,
      getNode (writeGradsAux T 0 (chainState x k)) 0 =
        applyWrite ⟨[x.length], x, true, none, none, false⟩ (T 0) :=
    fun T => rfl
  rw [hw, hbp]
  rfl

/-- C10 witness: the notebook's seed `[0.1, 1.0, 0.0001]` with `k = 11`
doublings gives `x.grad = [204.8, 2048, 0.2048]` — the recorded output. -/
theorem c10_witness :
    ([1/10, 1, 1/10000] : List ℚ).length = ([1, 1, 1] : List ℚ).length ∧
    chainGrad [1, 1, 1] [1/10, 1, 1/10000] 11 =
      some (some [1024/5, 2048, 128/625]) := by
  refine ⟨by decide, ?_⟩
  rw [c10_chain_grad [1, 1, 1] [1/10, 1, 1/10000] 11 (by decide)]
  norm_num

/-- C5 amended witness: concrete instance on a one-tensor tape. -/
theorem c5_amended_witness :
    getNode (addC (mkLeaf [] [1] [7] true).1 0 2).1 0 =
      getNode (mkLeaf [] [1] [7] true).1 0 ∧
    (getNode [(⟨[1], [7], true, none, some [1], false⟩ : Node)] 0).gradFn =
      (getNode (mkLeaf [] [1] [7] true).1 0).gradFn := by
  have h := c5_amended_frame (mkLeaf [] [1] [7] true).1 0 0 0 0 2 [1] [7]
    true none [⟨[1], [7], true, none, some [1], false⟩]
  exact ⟨(h.1 0 (by decide)).2.1,
    (h.2.2 (by with_unfolding_all decide) 0).2⟩
